import Mathlib

/-!
Shallow embedding of the command-line layer of the barman backup tool
(module barman/cli.py): target-set resolution, per-target error
classification, backup-identifier resolution, tablespace relocation rule
parsing, the recover command flow and the cron maintenance sweep.

External collaborators (the configuration provider, the Server execution
collaborator and the output channel) are modelled as abstract data carried
in the structures below; the control flow of cli.py itself is transcribed
directly.  Emitting a message through the output channel is modelled as
appending an OutEvent to a trace; output.close_and_exit terminating the
process is modelled by the functions returning an aborted outcome.
-/

set_option autoImplicit false

namespace Barman

/-- Per-server configuration as seen by cli.py: the name, the active flag,
the disabled flag and the list of configuration error messages
(config.msg_list). -/
structure ServerConfig where
  name : String
  active : Bool
  disabled : Bool
  msg_list : List String
  deriving DecidableEq

/-- The configuration provider (barman.__config__ in cli.py):
servers() gives the full configured set, get_server looks a name up, and
servers_msg_list is the list of global cross-server conflict messages. -/
structure BarmanConfig where
  servers : List ServerConfig
  get_server : String → Option ServerConfig
  servers_msg_list : List String

/-- Structured payloads of the messages cli.py sends to the output
channel; the textual formatting of the messages is done by the external
output collaborator and is not modelled. -/
inductive Msg where
  | confMessage (m : String)
  | unknownServer (name : String)
  | unknownBackup (backup_id : String) (server_name : String)
  | invalidTablespaceRule (rule : String)
  | invalidTablespaceName (name : String) (valid : List String)
  | destinationContainsColon
  | notActiveServer (name : String)
  | skippingInactive (name : String)
  | skippingDisabled (name : String)
  | anotherCronRunning
  | permissionDenied (path : String)
  deriving DecidableEq

/-- One message sent to the output channel, with its severity level
(output.info / output.warning / output.error in cli.py). -/
inductive OutEvent where
  | info (m : Msg)
  | warning (m : Msg)
  | error (m : Msg)
  deriving DecidableEq

/-- Whether an output event was emitted through output.error.  The output
channel terminates the process with a non-zero status exactly when at
least one error was emitted. -/
def OutEvent.isError : OutEvent → Bool
  | .error _ => true
  | _ => false

/-- Python membership test c in s on a string, used for the colon checks
in the recover command. -/
def strContains (s : String) (c : Char) : Bool :=
  s.toList.contains c

/-- Split a character list at the first occurrence of sep: returns the
part before and the part after, or none when sep does not occur.  This is
the core of Python s.split(sep, 1). -/
def splitOnce (sep : Char) : List Char → Option (List Char × List Char)
  | [] => none
  | c :: cs =>
    if c = sep then some ([], cs)
    else
      match splitOnce sep cs with
      | none => none
      | some (a, b) => some (c :: a, b)

/-- Python s.split(sep, 1): a one-element list when sep does not occur in
s, otherwise the two parts around the first occurrence. -/
def split1 (sep : Char) (s : String) : List String :=
  match splitOnce sep s.toList with
  | none => [s]
  | some (a, b) => [String.mk a, String.mk b]

/-- Update of an ordered association list treated as a Python dict with
distinct keys: replace the value if the key is present (keeping its
position), append otherwise. -/
def alInsert {α : Type} : List (String × α) → String → α → List (String × α)
  | [], k, v => [(k, v)]
  | (a, b) :: d, k, v =>
    if a = k then (a, v) :: d else (a, b) :: alInsert d k v

/-- Key lookup in an ordered association list (Python dict access). -/
def alLookup {α : Type} : List (String × α) → String → Option α
  | [], _ => none
  | (a, b) :: d, k => if a = k then some b else alLookup d k

/-- The tablespace relocation rule loop of the recover command: each rule
is split on the first colon and fed to dict.update; a rule on which
split(..., 1) yields a single part (no colon) makes dict.update raise
ValueError, which recover reports quoting the rule and then exits, so
later rules are not processed. -/
def decodeTablespaceRules : List String → List (String × String) →
    Except String (List (String × String))
  | [], acc => Except.ok acc
  | r :: rs, acc =>
    match split1 ':' r with
    | [k, v] => decodeTablespaceRules rs (alInsert acc k v)
    | _ => Except.error r

example : decodeTablespaceRules ["a:/x", "b:/y"] [] =
    Except.ok [("a", "/x"), ("b", "/y")] := rfl

example : decodeTablespaceRules ["a:/x", "a:/z"] [] =
    Except.ok [("a", "/z")] := rfl

example : decodeTablespaceRules ["malformed"] [] =
    Except.error "malformed" := rfl

example : decodeTablespaceRules ["a:"] [] = Except.ok [("a", "")] := rfl

/-- server_error_output of cli.py as a pure function: given the server
configuration, the severity flag is_error and the check_active flag, it
returns the emitted output events and whether output.close_and_exit was
called (aborting the run).  In the source the disabled branch assigns
check_active = False and falls through to the active check; that is
transcribed here as the active check living in the else branch of the
disabled test. -/
def server_error_output (config : ServerConfig) (is_error : Bool)
    (check_active : Bool) : List OutEvent × Bool :=
  if config.disabled then
    if is_error then
      (config.msg_list.map (fun m => OutEvent.error (Msg.confMessage m)), true)
    else
      (config.msg_list.map (fun m => OutEvent.warning (Msg.confMessage m)),
        false)
  else if check_active ∧ config.active = false then
    if is_error then
      ([OutEvent.error (Msg.notActiveServer config.name)], true)
    else
      ([OutEvent.warning (Msg.notActiveServer config.name)], false)
  else
    ([], false)

/-- A completed backup has status DONE (BackupInfo.DONE); every other
status (in progress, failed, ...) is collapsed into other, which is all
the recover command distinguishes. -/
inductive BackupStatus where
  | done
  | other
  deriving DecidableEq

/-- One tablespace known to a backup: its name and original location. -/
structure TablespaceData where
  name : String
  location : String
  deriving DecidableEq

/-- The part of a BackupInfo record the recover command reads: its status
and its tablespace list.  A backup whose tablespaces attribute is None in
Python is modelled by the empty list: both make the valid-tablespace list
in recover empty. -/
structure BackupInfo where
  status : BackupStatus
  tablespaces : List TablespaceData
  deriving DecidableEq

/-- The Server execution collaborator as cli.py sees it for backup-id
resolution: its configuration and its externally owned backup store, with
get_last_backup / get_first_backup giving the id that the latest / oldest
alias resolves to and get_backup the literal-id lookup.  The store is
immutable here, which models resolution between store mutations. -/
structure ServerM where
  config : ServerConfig
  get_last_backup : String
  get_first_backup : String
  get_backup : String → Option BackupInfo

/-- parse_backup_id of cli.py: the aliases latest/last resolve through
server.get_last_backup, oldest/first through server.get_first_backup, any
other identifier is looked up literally via server.get_backup. -/
def parse_backup_id (server : ServerM) (args_backup_id : String) :
    Option BackupInfo :=
  let backup_id :=
    if args_backup_id = "latest" ∨ args_backup_id = "last" then
      server.get_last_backup
    else if args_backup_id = "oldest" ∨ args_backup_id = "first" then
      server.get_first_backup
    else
      args_backup_id
  server.get_backup backup_id

/-- get_server of cli.py: with a non-empty global conflict list every
conflict is emitted as an error and the process exits (outer none);
otherwise an unknown name yields Python None (some none) with no output,
and a known name yields Server(config) after server_error_output ran with
the dangerous severity (exiting when it aborted).  mk stands for the
external Server constructor. -/
def get_server (cfg : BarmanConfig) (mk : ServerConfig → ServerM)
    (server_name : String) (dangerous : Bool) :
    List OutEvent × Option (Option ServerM) :=
  if cfg.servers_msg_list ≠ [] then
    (cfg.servers_msg_list.map (fun m => OutEvent.error (Msg.confMessage m)),
      none)
  else
    match cfg.get_server server_name with
    | none => ([], some none)
    | some conf =>
      let seo := server_error_output conf dangerous true
      if seo.2 then (seo.1, none) else (seo.1, some (some (mk conf)))

/-- Outcome of the recover command: either the process exited through
output.close_and_exit before reaching server.recover, or server.recover
was invoked with the given backup, destination and tablespace mapping. -/
inductive RecoverOutcome where
  | exited
  | recovered (backup : BackupInfo) (destination : String)
      (tablespaces : List (String × String))
  deriving DecidableEq

/-- The arguments of the recover command that the validation logic reads:
the server name, the backup id, the repeatable --tablespace option (None
when not given) and the destination directory. -/
structure RecoverArgs where
  server_name : String
  backup_id : String
  tablespace : Option (List String)
  destination_directory : String

/-- The check item not in valid_tablespaces of the validation loop in
recover, applied to one relocation rule entry. -/
def unknownTablespace (valid_tablespaces : List String)
    (p : String × String) : Bool :=
  !(valid_tablespaces.contains p.1)

/-- The body of recover once a Server object is in hand (the part of
cli.py recover after is_unknown_server): resolve the backup id, reject a
missing or not-DONE backup, decode the tablespace relocation rules,
validate them against the backup tablespace list, reject a destination
containing a colon, and finally hand over to server.recover.  ev is the
output emitted so far. -/
def recoverWithServer (ev : List OutEvent) (server : ServerM)
    (args : RecoverArgs) : List OutEvent × RecoverOutcome :=
  match parse_backup_id server args.backup_id with
  | none =>
    (ev ++ [OutEvent.error (Msg.unknownBackup args.backup_id
        args.server_name)], RecoverOutcome.exited)
  | some backup =>
    if backup.status ≠ BackupStatus.done then
      (ev ++ [OutEvent.error (Msg.unknownBackup args.backup_id
          args.server_name)], RecoverOutcome.exited)
    else
      match decodeTablespaceRules (args.tablespace.getD []) [] with
      | Except.error r =>
        (ev ++ [OutEvent.error (Msg.invalidTablespaceRule r)],
          RecoverOutcome.exited)
      | Except.ok tablespaces =>
        let valid_tablespaces := backup.tablespaces.map (fun td => td.name)
        match tablespaces.find? (unknownTablespace valid_tablespaces) with
        | some p =>
          (ev ++ [OutEvent.error (Msg.invalidTablespaceName p.1
              valid_tablespaces)], RecoverOutcome.exited)
        | none =>
          if strContains args.destination_directory ':' then
            (ev ++ [OutEvent.error Msg.destinationContainsColon],
              RecoverOutcome.exited)
          else
            (ev, RecoverOutcome.recovered backup args.destination_directory
              tablespaces)

/-- The recover command of cli.py: get_server with dangerous=True, then
is_unknown_server (emitting the unknown-server error and exiting when the
name has no configuration), then the body above. -/
def recover (cfg : BarmanConfig) (mk : ServerConfig → ServerM)
    (args : RecoverArgs) : List OutEvent × RecoverOutcome :=
  match get_server cfg mk args.server_name true with
  | (ev, none) => (ev, RecoverOutcome.exited)
  | (ev, some none) =>
    (ev ++ [OutEvent.error (Msg.unknownServer args.server_name)],
      RecoverOutcome.exited)
  | (ev, some (some server)) => recoverWithServer ev server args

/-- The all-servers branch of get_server_list: iterate the configured set
in configuration order, skipping inactive / disabled servers (with an
informational message) when the corresponding flag is set, and building
the name-to-server dict for the rest. -/
def serverListAll (cfg : BarmanConfig) (skip_inactive skip_disabled : Bool) :
    List OutEvent × List (String × Option ServerConfig) :=
  cfg.servers.foldl
    (fun acc conf =>
      if skip_inactive ∧ conf.active = false then
        (acc.1 ++ [OutEvent.info (Msg.skippingInactive conf.name)], acc.2)
      else if skip_disabled ∧ conf.disabled then
        (acc.1 ++ [OutEvent.info (Msg.skippingDisabled conf.name)], acc.2)
      else
        (acc.1, alInsert acc.2 conf.name (some conf)))
    ([], [])

/-- The explicit-name-list branch of get_server_list: each requested name
is mapped to its configuration lookup result, Python None (here none) for
an unknown name. -/
def serverListNamed (cfg : BarmanConfig) (names : List String) :
    List (String × Option ServerConfig) :=
  names.foldl (fun acc nm => alInsert acc nm (cfg.get_server nm)) []

/-- get_server_list of cli.py.  args is None (no name list) or the list
of requested names.  With a non-empty global conflict list the conflicts
are emitted as errors unless suppress_error, and with on_error_stop the
process exits (none) before any target is resolved.  Otherwise the full
configured set is expanded when args is None or the first requested name
is the all sentinel, and the explicit list is resolved name by name
otherwise. -/
def get_server_list (cfg : BarmanConfig) (args : Option (List String))
    (skip_inactive skip_disabled on_error_stop suppress_error : Bool) :
    List OutEvent × Option (List (String × Option ServerConfig)) :=
  let ev0 : List OutEvent :=
    if cfg.servers_msg_list = [] then []
    else if suppress_error then []
    else cfg.servers_msg_list.map (fun m => OutEvent.error (Msg.confMessage m))
  if cfg.servers_msg_list ≠ [] ∧ on_error_stop then (ev0, none)
  else
    match args with
    | none =>
      let r := serverListAll cfg skip_inactive skip_disabled
      (ev0 ++ r.1, some r.2)
    | some names =>
      if names.head? = some "all" then
        let r := serverListAll cfg skip_inactive skip_disabled
        (ev0 ++ r.1, some r.2)
      else
        (ev0, some (serverListNamed cfg names))

/-- Outcome of acquiring the global cron lock: acquired, already held by
another cron (lockfile.LockFileBusy), or not accessible for permission
reasons (lockfile.LockFilePermissionDenied carrying the path). -/
inductive LockResult where
  | acquired
  | busy
  | permissionDenied (path : String)
  deriving DecidableEq

/-- Insertion of a string into a sorted list, for Python sorted(...). -/
def insortStr (x : String) : List String → List String
  | [] => [x]
  | y :: ys => if x ≤ y then x :: y :: ys else y :: insortStr x ys

/-- Python sorted(...) on a list of strings (insertion sort). -/
def sortStr : List String → List String
  | [] => []
  | x :: xs => insortStr x (sortStr xs)

/-- The per-server loop of cron: for each name in sorted order run
server_error_output with error severity (exiting the process when it
aborts) and then the server maintenance body, collecting the names whose
body ran.  The dict produced by the all-servers expansion never maps a
name to none, so the fallthrough case is unreachable there. -/
def cronLoop (d : List (String × Option ServerConfig)) :
    List String → List OutEvent → List String → List OutEvent × List String
  | [], ev, ran => (ev, ran)
  | name :: rest, ev, ran =>
    match alLookup d name with
    | some (some conf) =>
      let seo := server_error_output conf true true
      if seo.2 then (ev ++ seo.1, ran)
      else cronLoop d rest (ev ++ seo.1) (ran ++ [name])
    | _ => cronLoop d rest ev ran

/-- The cron command of cli.py: under the global lock, resolve all
targets with skip_inactive and run the maintenance body per server; a
busy lock yields the informational another-cron-running message, a
permission failure yields an error.  The second component lists the
servers whose maintenance body ran. -/
def cron (cfg : BarmanConfig) (lock : LockResult) :
    List OutEvent × List String :=
  match lock with
  | LockResult.acquired =>
    match get_server_list cfg none true false true false with
    | (ev, none) => (ev, [])
    | (ev, some d) => cronLoop d (sortStr (d.map (fun p => p.1))) ev []
  | LockResult.busy => ([OutEvent.info Msg.anotherCronRunning], [])
  | LockResult.permissionDenied p =>
    ([OutEvent.error (Msg.permissionDenied p)], [])

/-! ### Helper lemmas about splitting, association lists and the decoder -/

theorem splitOnce_none_spec (sep : Char) (l : List Char) :
    splitOnce sep l = none → sep ∉ l := by
  induction l with
  | nil => intro _; simp
  | cons c cs ih =>
    intro h
    rw [splitOnce] at h
    by_cases hc : c = sep
    · rw [if_pos hc] at h; cases h
    · rw [if_neg hc] at h
      cases hs : splitOnce sep cs with
      | none =>
        have hcs := ih hs
        simp only [List.mem_cons, not_or]
        exact ⟨fun hh => hc hh.symm, hcs⟩
      | some ab =>
        obtain ⟨a, b⟩ := ab
        rw [hs] at h
        cases h

theorem splitOnce_some_spec (sep : Char) (l : List Char) :
    ∀ a b : List Char, splitOnce sep l = some (a, b) →
      l = a ++ sep :: b ∧ sep ∉ a := by
  induction l with
  | nil => intro a b h; cases h
  | cons c cs ih =>
    intro a b h
    rw [splitOnce] at h
    by_cases hc : c = sep
    · rw [if_pos hc] at h
      rw [Option.some.injEq, Prod.mk.injEq] at h
      obtain ⟨ha, hb⟩ := h
      subst ha; subst hb; subst hc
      simp
    · rw [if_neg hc] at h
      cases hs : splitOnce sep cs with
      | none => rw [hs] at h; cases h
      | some ab =>
        obtain ⟨a', b'⟩ := ab
        rw [hs] at h
        rw [Option.some.injEq, Prod.mk.injEq] at h
        obtain ⟨ha, hb⟩ := h
        subst ha; subst hb
        obtain ⟨h1, h2⟩ := ih a' b' hs
        constructor
        · rw [List.cons_append, ← h1]
        · simp only [List.mem_cons, not_or]
          exact ⟨fun hh => hc hh.symm, h2⟩

theorem splitOnce_append (sep : Char) (b : List Char) :
    ∀ a : List Char, sep ∉ a → splitOnce sep (a ++ sep :: b) = some (a, b) := by
  intro a
  induction a with
  | nil => intro _; simp [splitOnce]
  | cons c cs ih =>
    intro ha
    have hc : ¬ c = sep := by
      intro h; subst h; exact ha (List.mem_cons_self _ _)
    have htail : sep ∉ cs := fun hm => ha (List.mem_cons_of_mem _ hm)
    rw [List.cons_append, splitOnce, if_neg hc, ih htail]

theorem split1_concat (name loc : String) (h : strContains name ':' = false) :
    split1 ':' (name ++ ":" ++ loc) = [name, loc] := by
  have hmem : (':' : Char) ∉ name.toList := by
    rw [strContains] at h
    simp at h
    exact h
  have hsplit : splitOnce ':' ((name ++ ":" ++ loc).toList) =
      some (name.toList, loc.toList) := by
    have h0 : (name ++ ":" ++ loc).toList =
        (name.toList ++ [':']) ++ loc.toList := rfl
    rw [h0, List.append_assoc, List.singleton_append]
    exact splitOnce_append ':' loc.toList name.toList hmem
  rw [split1, hsplit]
  rfl

theorem strContains_of_splitOnce_some (s : String) (a b : List Char)
    (hs : splitOnce ':' s.toList = some (a, b)) : strContains s ':' = true := by
  obtain ⟨h1, _⟩ := splitOnce_some_spec ':' s.toList a b hs
  have hm : (':' : Char) ∈ s.toList := by rw [h1]; simp
  rw [strContains]
  simpa using hm

theorem splitOnce_isSome_of_contains (s : String)
    (h : strContains s ':' = true) :
    ∃ a b, splitOnce ':' s.toList = some (a, b) := by
  cases hs : splitOnce ':' s.toList with
  | none =>
    have hm := splitOnce_none_spec ':' s.toList hs
    rw [strContains] at h
    simp at h
    exact absurd h hm
  | some ab =>
    obtain ⟨a, b⟩ := ab
    exact ⟨a, b, rfl⟩

theorem alLookup_alInsert {α : Type} (d : List (String × α)) (k k' : String)
    (v : α) :
    alLookup (alInsert d k v) k' = if k' = k then some v else alLookup d k' := by
  induction d with
  | nil =>
    by_cases h : k' = k
    · simp [alInsert, alLookup, h]
    · simp [alInsert, alLookup, h, Ne.symm h]
  | cons p d ih =>
    obtain ⟨a, b⟩ := p
    by_cases hak : a = k
    · subst hak
      by_cases h : k' = a
      · subst h; simp [alInsert, alLookup]
      · simp [alInsert, alLookup, h, Ne.symm h]
    · by_cases h : a = k'
      · subst h
        simp [alInsert, alLookup, hak, Ne.symm hak]
      · simp [alInsert, alLookup, hak, h, ih]

theorem alLookup_foldl_insert {α : Type} (f : String → α) (names : List String) :
    ∀ (d0 : List (String × α)) (k : String),
      alLookup (names.foldl (fun acc nm => alInsert acc nm (f nm)) d0) k =
        if k ∈ names then some (f k) else alLookup d0 k := by
  induction names with
  | nil => intro d0 k; simp
  | cons nm rest ih =>
    intro d0 k
    rw [List.foldl_cons, ih]
    by_cases hk : k ∈ rest
    · simp [hk, List.mem_cons]
    · rw [if_neg hk, alLookup_alInsert]
      by_cases he : k = nm
      · subst he; simp
      · simp [he, hk, List.mem_cons]

theorem decode_wf_rules (ps : List (String × String)) :
    ∀ d : List (String × String),
      (∀ p ∈ ps, strContains p.1 ':' = false) →
      decodeTablespaceRules (ps.map (fun p => p.1 ++ ":" ++ p.2)) d =
        Except.ok (ps.foldl (fun acc p => alInsert acc p.1 p.2) d) := by
  induction ps with
  | nil => intro d _; simp [decodeTablespaceRules]
  | cons p ps ih =>
    intro d h
    obtain ⟨nm, loc⟩ := p
    have hs := split1_concat nm loc (h (nm, loc) (List.mem_cons_self _ _))
    rw [List.map_cons, decodeTablespaceRules, hs]
    exact ih _ (fun q hq => h q (List.mem_cons_of_mem _ hq))

theorem decode_fail_fast (pre : List String) :
    ∀ (r : String) (post : List String) (acc : List (String × String)),
      (∀ p ∈ pre, strContains p ':' = true) → strContains r ':' = false →
      decodeTablespaceRules (pre ++ r :: post) acc = Except.error r := by
  induction pre with
  | nil =>
    intro r post acc _ hr
    have hnone : splitOnce ':' r.toList = none := by
      cases hs : splitOnce ':' r.toList with
      | none => rfl
      | some ab =>
        obtain ⟨a, b⟩ := ab
        have := strContains_of_splitOnce_some r a b hs
        rw [this] at hr
        cases hr
    rw [List.nil_append, decodeTablespaceRules, split1, hnone]
  | cons p pre ih =>
    intro r post acc hpre hr
    have hp := hpre p (List.mem_cons_self _ _)
    obtain ⟨a, b, hs⟩ := splitOnce_isSome_of_contains p hp
    rw [List.cons_append, decodeTablespaceRules, split1, hs]
    exact ih r post _ (fun q hq => hpre q (List.mem_cons_of_mem _ hq)) hr

/-! ### Claim theorems -/

/-- Claim C6: parsing well-formed tablespace relocation rules yields the
mapping from each name to its location, inserted in order with a later
duplicate name overwriting the earlier value (last-wins), and in
particular parsing a:/x, b:/y gives the two-entry mapping while parsing
a:/x, a:/z keeps only the later a mapping. -/
theorem tablespace_rules_last_wins :
    (∀ (d ps : List (String × String)),
      (∀ p ∈ ps, strContains p.1 ':' = false) →
      decodeTablespaceRules (ps.map (fun p => p.1 ++ ":" ++ p.2)) d =
        Except.ok (ps.foldl (fun acc p => alInsert acc p.1 p.2) d))
    ∧ decodeTablespaceRules ["a:/x", "b:/y"] [] =
        Except.ok [("a", "/x"), ("b", "/y")]
    ∧ decodeTablespaceRules ["a:/x", "a:/z"] [] = Except.ok [("a", "/z")] :=
  ⟨fun d ps h => decode_wf_rules ps d h, rfl, rfl⟩

/-- Witness for C6 at a concrete rule list. -/
theorem tablespace_rules_last_wins_check :
    decodeTablespaceRules
        (List.map (fun p => p.1 ++ ":" ++ p.2) [(("tbs" : String), ("/new" : String))]) [] =
      Except.ok [("tbs", "/new")] := by
  have h := tablespace_rules_last_wins.1 [] [("tbs", "/new")] (by decide)
  simpa using h

/-- Claim C3 counterexample: a rule with an empty location part (and one
with an empty name part) is accepted by the parsing loop rather than
producing an error, because split(..., 1) still yields two parts. -/
theorem tablespace_rule_empty_part_accepted :
    decodeTablespaceRules ["a:"] [] = Except.ok [("a", "")]
    ∧ decodeTablespaceRules [":x"] [] = Except.ok [("", "x")] := ⟨rfl, rfl⟩

/-- Claim C3 (amended): each rule containing a colon is split into
exactly two parts at the first colon (either part may be empty); a rule
lacking a colon produces an error quoting the offending literal rule, and
parsing stops at that first malformed rule without processing later
rules. -/
theorem tablespace_rules_fail_fast :
    (∀ (s : String) (a b : List Char), splitOnce ':' s.toList = some (a, b) →
      split1 ':' s = [String.mk a, String.mk b]
      ∧ s.toList = a ++ ':' :: b ∧ ':' ∉ a)
    ∧ (∀ (pre : List String) (r : String) (post : List String)
        (acc : List (String × String)),
        (∀ p ∈ pre, strContains p ':' = true) → strContains r ':' = false →
        decodeTablespaceRules (pre ++ r :: post) acc = Except.error r) := by
  constructor
  · intro s a b hs
    refine ⟨?_, splitOnce_some_spec ':' s.toList a b hs⟩
    rw [split1, hs]
  · intro pre r post acc h1 h2
    exact decode_fail_fast pre r post acc h1 h2

/-- Witness for C3: the error quotes the first colon-free rule and the
rule after it is not processed. -/
theorem tablespace_rules_fail_fast_check :
    decodeTablespaceRules ["a:/x", "nocolon", "b:/y"] [] =
      Except.error "nocolon" :=
  tablespace_rules_fail_fast.2 ["a:/x"] "nocolon" ["b:/y"] []
    (by decide) (by decide)

/-- Claim C4: classifying a disabled target emits every disabled-reason
message in original order, as errors followed by an abort when is_error
is set and as warnings without aborting otherwise, and in both branches
the separate not-active message is never emitted. -/
theorem classify_disabled_server (conf : ServerConfig) (ie ca : Bool)
    (hd : conf.disabled = true) :
    server_error_output conf ie ca =
      (if ie then
        (conf.msg_list.map (fun m => OutEvent.error (Msg.confMessage m)), true)
      else
        (conf.msg_list.map (fun m => OutEvent.warning (Msg.confMessage m)),
          false))
    ∧ ∀ n : String,
        OutEvent.error (Msg.notActiveServer n) ∉
          (server_error_output conf ie ca).1
        ∧ OutEvent.warning (Msg.notActiveServer n) ∉
          (server_error_output conf ie ca).1 := by
  constructor
  · cases ie <;> simp [server_error_output, hd]
  · intro n
    cases ie <;> simp [server_error_output, hd]

/-- Witness for C4 at a concrete disabled configuration. -/
theorem classify_disabled_server_check :
    server_error_output ⟨"s1", true, true, ["m1", "m2"]⟩ true true =
      ([OutEvent.error (Msg.confMessage "m1"),
        OutEvent.error (Msg.confMessage "m2")], true) := by
  have h := (classify_disabled_server ⟨"s1", true, true, ["m1", "m2"]⟩
    true true rfl).1
  simpa using h

/-- Claim C7: the alias latest resolves like last and oldest like first;
any other identifier is looked up literally, and a literal lookup against
the same (unmutated) store gives the same record. -/
theorem backup_id_alias_equiv (server : ServerM) :
    parse_backup_id server "latest" = parse_backup_id server "last"
    ∧ parse_backup_id server "oldest" = parse_backup_id server "first"
    ∧ ∀ bid : String, bid ∉ ["latest", "last", "oldest", "first"] →
        parse_backup_id server bid = server.get_backup bid := by
  refine ⟨rfl, rfl, ?_⟩
  intro bid h
  simp only [List.mem_cons, List.not_mem_nil, or_false, not_or] at h
  obtain ⟨h1, h2, h3, h4⟩ := h
  rw [parse_backup_id]
  simp [h1, h2, h3, h4]

/-- Witness for C7: a literal id is looked up directly in the store. -/
theorem backup_id_alias_equiv_check :
    parse_backup_id
        ⟨⟨"s1", true, false, []⟩, "b9", "b1",
          fun i => if i = "b1" then some ⟨BackupStatus.done, []⟩ else none⟩
        "b1" = some ⟨BackupStatus.done, []⟩ := by
  have h := (backup_id_alias_equiv
      ⟨⟨"s1", true, false, []⟩, "b9", "b1",
        fun i => if i = "b1" then some ⟨BackupStatus.done, []⟩ else none⟩).2.2
      "b1" (by decide)
  simpa using h

/-- Claim C8 (amended): when cron fails to acquire the global lock no
per-server maintenance body runs and the two failure outcomes carry
distinct diagnostics, but only the permission-denied outcome is an error;
a busy lock is reported as an informational message, so it does not cause
a non-zero exit status. -/
theorem cron_lock_failure_outcomes (cfg : BarmanConfig) (p : String) :
    cron cfg LockResult.busy = ([OutEvent.info Msg.anotherCronRunning], [])
    ∧ cron cfg (LockResult.permissionDenied p) =
        ([OutEvent.error (Msg.permissionDenied p)], []) := ⟨rfl, rfl⟩

/-- Claim C8 counterexample: a busy lock is reported through output.info,
so the trace contains no error event and the run terminates with a
success status, contradicting the claim that every lock failure is
reported as an error with a non-zero status. -/
theorem cron_busy_reported_as_info :
    cron ⟨[⟨"srv", true, false, []⟩], fun _ => none, []⟩ LockResult.busy =
      ([OutEvent.info Msg.anotherCronRunning], [])
    ∧ (cron ⟨[⟨"srv", true, false, []⟩], fun _ => none, []⟩
        LockResult.busy).1.all (fun e => !e.isError) = true := ⟨rfl, rfl⟩

/-- Claim C2 counterexample: a resolution request with on_error_stop set
but also suppress_error set returns no targets yet emits none of the
global conflict messages, contradicting the claim that every request with
on_error_stop emits each conflict message as an error. -/
theorem get_server_list_suppressed_conflicts :
    (get_server_list ⟨[], fun _ => none, ["conflict"]⟩ (some ["x"])
        false false true true).1 = []
    ∧ (get_server_list ⟨[], fun _ => none, ["conflict"]⟩ (some ["x"])
        false false true true).2 = none
    ∧ (⟨[], fun _ => none, ["conflict"]⟩ : BarmanConfig).servers_msg_list ≠
        [] := by
  refine ⟨rfl, rfl, by simp⟩

/-- Claim C2 (amended): with a non-empty global conflict list and
on_error_stop set, get_server_list aborts returning no targets, and when
suppress_error is not set it emits each global conflict message exactly
once as an error, independent of the requested names and of the skip
flags; with suppress_error set it aborts silently. -/
theorem get_server_list_global_conflicts_stop (cfg : BarmanConfig)
    (args : Option (List String)) (si sd : Bool)
    (h : cfg.servers_msg_list ≠ []) :
    get_server_list cfg args si sd true false =
      (cfg.servers_msg_list.map (fun m => OutEvent.error (Msg.confMessage m)),
        none)
    ∧ get_server_list cfg args si sd true true = ([], none) := by
  constructor <;> rw [get_server_list.eq_def] <;> simp [h]

/-- Witness for C2 at a concrete conflicting configuration. -/
theorem get_server_list_global_conflicts_stop_check :
    get_server_list ⟨[], fun _ => none, ["conflict"]⟩ (some ["x", "y"])
        true true true false =
      ([OutEvent.error (Msg.confMessage "conflict")], none) := by
  have h := (get_server_list_global_conflicts_stop
      ⟨[], fun _ => none, ["conflict"]⟩ (some ["x", "y"]) true true
      (by simp)).1
  simpa using h

/-- Claim C5: resolving an explicit name list containing at least one
unknown name maps every unknown name to null and every known name to its
constructed server; an unknown name never prevents the known names in the
same list from being resolved. -/
theorem named_list_unknown_isolated (cfg : BarmanConfig) (names : List String)
    (si sd oes se : Bool)
    (hge : cfg.servers_msg_list = [])
    (hall : names.head? ≠ some "all")
    (hunk : ∃ nm ∈ names, cfg.get_server nm = none) :
    get_server_list cfg (some names) si sd oes se =
      ([], some (serverListNamed cfg names))
    ∧ ∀ nm ∈ names,
        alLookup (serverListNamed cfg names) nm = some (cfg.get_server nm) := by
  constructor
  · rw [get_server_list.eq_def]
    simp [hge, hall]
  · intro nm hm
    rw [serverListNamed, alLookup_foldl_insert]
    simp [hm]

/-- Witness for C5: one known and one unknown name, both resolved. -/
theorem named_list_unknown_isolated_check :
    alLookup (serverListNamed
      ⟨[⟨"known", true, false, []⟩],
        (fun n => if n = "known" then some ⟨"known", true, false, []⟩
          else none), []⟩ ["known", "ghost"]) "ghost" = some none := by
  have h := (named_list_unknown_isolated
      ⟨[⟨"known", true, false, []⟩],
        (fun n => if n = "known" then some ⟨"known", true, false, []⟩
          else none), []⟩ ["known", "ghost"] false false true false rfl
      (by decide) ⟨"ghost", by decide, rfl⟩).2 "ghost" (by decide)
  simpa using h

/-- Claim C9: the all sentinel is recognized only in the first position
of the requested name list: a list starting with all behaves exactly like
an absent argument (full expansion), while all in a later position is
looked up as an ordinary target name, mapping to null when no target
named all is configured. -/
theorem all_sentinel_first_position (cfg : BarmanConfig)
    (names : List String) (si sd oes se : Bool) :
    (names.head? = some "all" →
      get_server_list cfg (some names) si sd oes se =
        get_server_list cfg none si sd oes se)
    ∧ (cfg.servers_msg_list = [] → names.head? ≠ some "all" →
        "all" ∈ names → cfg.get_server "all" = none →
        get_server_list cfg (some names) si sd oes se =
          ([], some (serverListNamed cfg names))
        ∧ alLookup (serverListNamed cfg names) "all" = some none) := by
  constructor
  · intro h
    rw [get_server_list.eq_def, get_server_list.eq_def]
    simp [h]
  · intro hge hall hmem hnone
    constructor
    · rw [get_server_list.eq_def]
      simp [hge, hall]
    · rw [serverListNamed, alLookup_foldl_insert]
      simp [hmem, hnone]

/-- Witness for C9: a leading all expands like an absent argument, and a
later all resolves as an ordinary unknown name. -/
theorem all_sentinel_first_position_check :
    (get_server_list ⟨[⟨"a1", true, false, []⟩], fun _ => none, []⟩
        (some ["all", "x"]) false false true false =
      get_server_list ⟨[⟨"a1", true, false, []⟩], fun _ => none, []⟩
        none false false true false)
    ∧ alLookup (serverListNamed ⟨[], fun _ => none, []⟩ ["x", "all"]) "all" =
        some none :=
  ⟨(all_sentinel_first_position ⟨[⟨"a1", true, false, []⟩], fun _ => none, []⟩
      ["all", "x"] false false true false).1 rfl,
   ((all_sentinel_first_position ⟨[], fun _ => none, []⟩ ["x", "all"]
      false false true false).2 rfl (by decide) (by decide) rfl).2⟩

/-- Whenever get_server exits the process (global conflicts, or
server_error_output aborting under the dangerous severity), at least one
error event was emitted; this needs the configuration invariant that a
disabled server carries at least one message. -/
theorem get_server_exit_error (cfg : BarmanConfig) (mk : ServerConfig → ServerM)
    (name : String)
    (hwf : ∀ nm conf, cfg.get_server nm = some conf → conf.disabled = true →
      conf.msg_list ≠ []) :
    ∀ ev, get_server cfg mk name true = (ev, none) →
      ∃ e ∈ ev, e.isError = true := by
  intro ev h
  rw [get_server] at h
  by_cases hge : cfg.servers_msg_list = []
  · rw [if_neg (fun hcon => hcon hge)] at h
    cases hc : cfg.get_server name with
    | none =>
      rw [hc] at h
      rw [Prod.mk.injEq] at h
      exact absurd h.2 (by simp)
    | some conf =>
      rw [hc] at h
      have h2 : (if (server_error_output conf true true).2 = true
          then ((server_error_output conf true true).1,
            (none : Option (Option ServerM)))
          else ((server_error_output conf true true).1,
            some (some (mk conf)))) = (ev, none) := h
      by_cases hd : conf.disabled = true
      · have hml := hwf name conf hc hd
        have hseo : server_error_output conf true true =
            (conf.msg_list.map (fun m => OutEvent.error (Msg.confMessage m)),
              true) := by
          simp [server_error_output, hd]
        rw [hseo, if_pos rfl, Prod.mk.injEq] at h2
        obtain ⟨m, ms, hms⟩ : ∃ m ms, conf.msg_list = m :: ms := by
          cases hq : conf.msg_list with
          | nil => exact absurd hq hml
          | cons m ms => exact ⟨m, ms, rfl⟩
        refine ⟨OutEvent.error (Msg.confMessage m), ?_, rfl⟩
        rw [← h2.1, hms]
        simp
      · by_cases ha : conf.active = true
        · have hseo : server_error_output conf true true = ([], false) := by
            simp [server_error_output, hd, ha]
          rw [hseo, if_neg (by simp), Prod.mk.injEq] at h2
          exact absurd h2.2 (by simp)
        · have hseo : server_error_output conf true true =
              ([OutEvent.error (Msg.notActiveServer conf.name)], true) := by
            simp [server_error_output, hd, ha]
          rw [hseo, if_pos rfl, Prod.mk.injEq] at h2
          refine ⟨OutEvent.error (Msg.notActiveServer conf.name), ?_, rfl⟩
          rw [← h2.1]
          simp
  · rw [if_pos hge] at h
    rw [Prod.mk.injEq] at h
    obtain ⟨h1, _⟩ := h
    obtain ⟨m, ms, hms⟩ : ∃ m ms, cfg.servers_msg_list = m :: ms := by
      cases hq : cfg.servers_msg_list with
      | nil => exact absurd hq hge
      | cons m ms => exact ⟨m, ms, rfl⟩
    refine ⟨OutEvent.error (Msg.confMessage m), ?_, rfl⟩
    rw [← h1, hms]
    simp

/-- Once a Server object is in hand, a destination directory containing a
colon makes the recover body exit before invoking server.recover, with an
error emitted on every such path. -/
theorem recoverWithServer_colon (ev : List OutEvent) (server : ServerM)
    (args : RecoverArgs)
    (hc : strContains args.destination_directory ':' = true) :
    (recoverWithServer ev server args).2 = RecoverOutcome.exited
    ∧ ∃ e ∈ (recoverWithServer ev server args).1, e.isError = true := by
  cases hb : parse_backup_id server args.backup_id with
  | none =>
    constructor
    · simp [recoverWithServer.eq_def, hb]
    · exact ⟨OutEvent.error (Msg.unknownBackup args.backup_id
        args.server_name), by simp [recoverWithServer.eq_def, hb], rfl⟩
  | some backup =>
    by_cases hst : backup.status = BackupStatus.done
    · cases hdec : decodeTablespaceRules (args.tablespace.getD []) [] with
      | error r =>
        constructor
        · simp [recoverWithServer.eq_def, hb, hst, hdec]
        · exact ⟨OutEvent.error (Msg.invalidTablespaceRule r),
            by simp [recoverWithServer.eq_def, hb, hst, hdec], rfl⟩
      | ok ts =>
        cases hf : ts.find?
            (unknownTablespace (backup.tablespaces.map (fun td => td.name)))
            with
        | some p =>
          constructor
          · simp [recoverWithServer.eq_def, hb, hst, hdec, hf]
          · exact ⟨OutEvent.error (Msg.invalidTablespaceName p.1
              (backup.tablespaces.map (fun td => td.name))),
              by simp [recoverWithServer.eq_def, hb, hst, hdec, hf], rfl⟩
        | none =>
          constructor
          · simp [recoverWithServer.eq_def, hb, hst, hdec, hf, hc]
          · exact ⟨OutEvent.error Msg.destinationContainsColon,
              by simp [recoverWithServer.eq_def, hb, hst, hdec, hf, hc], rfl⟩
    · constructor
      · simp [recoverWithServer.eq_def, hb, hst]
      · exact ⟨OutEvent.error (Msg.unknownBackup args.backup_id
          args.server_name), by simp [recoverWithServer.eq_def, hb, hst],
          rfl⟩

/-- Claim C1: a recover invocation whose destination directory contains a
colon never reaches server.recover and always terminates having emitted
an error, regardless of whether the named target exists or the backup
identifier resolves to a valid backup.  The hypothesis is the
configuration invariant that a disabled server carries at least one
message. -/
theorem recover_colon_destination_rejected (cfg : BarmanConfig)
    (mk : ServerConfig → ServerM) (args : RecoverArgs)
    (hwf : ∀ nm conf, cfg.get_server nm = some conf → conf.disabled = true →
      conf.msg_list ≠ [])
    (hc : strContains args.destination_directory ':' = true) :
    (recover cfg mk args).2 = RecoverOutcome.exited
    ∧ ∃ e ∈ (recover cfg mk args).1, e.isError = true := by
  rw [recover.eq_def]
  rcases hg : get_server cfg mk args.server_name true with ⟨ev, o⟩
  cases o with
  | none =>
    exact ⟨rfl, get_server_exit_error cfg mk args.server_name hwf ev hg⟩
  | some so =>
    cases so with
    | none =>
      refine ⟨rfl, OutEvent.error (Msg.unknownServer args.server_name),
        ?_, rfl⟩
      simp
    | some server =>
      exact recoverWithServer_colon ev server args hc

/-- Witness for C1: a fully valid recover request (known active server,
resolvable DONE backup, no tablespace rules) whose destination contains a
colon exits instead of recovering. -/
theorem recover_colon_destination_rejected_check :
    (recover
      ⟨[⟨"s1", true, false, []⟩],
        (fun n => if n = "s1" then some ⟨"s1", true, false, []⟩ else none),
        []⟩
      (fun c => ⟨c, "b1", "b1",
        fun i => if i = "b1" then some ⟨BackupStatus.done, []⟩ else none⟩)
      ⟨"s1", "latest", none, "host:/path"⟩).2 = RecoverOutcome.exited :=
  (recover_colon_destination_rejected
    ⟨[⟨"s1", true, false, []⟩],
      (fun n => if n = "s1" then some ⟨"s1", true, false, []⟩ else none),
      []⟩
    (fun c => ⟨c, "b1", "b1",
      fun i => if i = "b1" then some ⟨BackupStatus.done, []⟩ else none⟩)
    ⟨"s1", "latest", none, "host:/path"⟩
    (by
      intro nm conf h1 h2
      have h1x : (if nm = "s1"
          then some (⟨"s1", true, false, []⟩ : ServerConfig) else none) =
          some conf := h1
      by_cases hn : nm = "s1"
      · rw [if_pos hn] at h1x
        cases h1x
        cases h2
      · rw [if_neg hn] at h1x
        cases h1x)
    rfl).1

/-- Claim C10: for recover, a backup identifier resolving to a record
whose status is not DONE is treated exactly like an unresolvable
identifier: the same unknown-backup error is emitted and the command
exits, and the result does not depend on the tablespace rules or the
destination directory. -/
theorem recover_not_done_backup_unknown (cfg : BarmanConfig)
    (mk : ServerConfig → ServerM) (args : RecoverArgs) (conf : ServerConfig)
    (hge : cfg.servers_msg_list = [])
    (hcf : cfg.get_server args.server_name = some conf)
    (hd : conf.disabled = false) (ha : conf.active = true)
    (hb : parse_backup_id (mk conf) args.backup_id = none
      ∨ ∃ b, parse_backup_id (mk conf) args.backup_id = some b
          ∧ b.status ≠ BackupStatus.done) :
    recover cfg mk args =
      ([OutEvent.error (Msg.unknownBackup args.backup_id args.server_name)],
        RecoverOutcome.exited)
    ∧ ∀ (ts : Option (List String)) (dest : String),
        recover cfg mk ⟨args.server_name, args.backup_id, ts, dest⟩ =
          recover cfg mk args := by
  have hgs : get_server cfg mk args.server_name true =
      ([], some (some (mk conf))) := by
    rw [get_server]
    simp [hge, hcf, server_error_output, hd, ha]
  have key : ∀ (ts : Option (List String)) (dest : String),
      recover cfg mk ⟨args.server_name, args.backup_id, ts, dest⟩ =
        ([OutEvent.error (Msg.unknownBackup args.backup_id args.server_name)],
          RecoverOutcome.exited) := by
    intro ts dest
    rw [recover.eq_def]
    rcases hb with hnone | ⟨b, hsome, hst⟩
    · simp [hgs, recoverWithServer.eq_def, hnone]
    · simp [hgs, recoverWithServer.eq_def, hsome, hst]
  constructor
  · exact key args.tablespace args.destination_directory
  · intro ts dest
    exact (key ts dest).trans
      (key args.tablespace args.destination_directory).symm

/-- Witness for C10: a backup id resolving to a record in a non-DONE
state yields the unknown-backup error even though tablespace rules are
malformed and the destination contains a colon, showing neither was
examined. -/
theorem recover_not_done_backup_unknown_check :
    recover
      ⟨[⟨"s1", true, false, []⟩],
        (fun n => if n = "s1" then some ⟨"s1", true, false, []⟩ else none),
        []⟩
      (fun c => ⟨c, "bX", "b0",
        fun i => if i = "bad" then some ⟨BackupStatus.other, []⟩ else none⟩)
      ⟨"s1", "bad", some ["nocolonrule"], "host:/dest"⟩ =
      ([OutEvent.error (Msg.unknownBackup "bad" "s1")],
        RecoverOutcome.exited) :=
  (recover_not_done_backup_unknown
    ⟨[⟨"s1", true, false, []⟩],
      (fun n => if n = "s1" then some ⟨"s1", true, false, []⟩ else none),
      []⟩
    (fun c => ⟨c, "bX", "b0",
      fun i => if i = "bad" then some ⟨BackupStatus.other, []⟩ else none⟩)
    ⟨"s1", "bad", some ["nocolonrule"], "host:/dest"⟩
    ⟨"s1", true, false, []⟩
    rfl rfl rfl rfl
    (Or.inr ⟨⟨BackupStatus.other, []⟩, rfl, by decide⟩)).1

end Barman
